import Mathlib

/-!
Shallow embedding of the rmfuse virtual-filesystem adapter
(`src/rmfuse/fuse.py`): the inode registry, name projection, attribute
projection, read/write sessions, the `.mode` control file, and the
dispatcher operations `read`, `write`, `release`, `rename`, `create`,
`readdir`.  Machine-level details that the adapter treats as external
collaborators (the rmcl item store, the renderer, the FUSE runtime) are
modelled as parameters.  Byte strings are modelled as `List Nat`.
-/

set_option maxRecDepth 8192

deriving instance DecidableEq for Except

namespace RMfuse

/-- POSIX error codes raised by the adapter (via `fuse.FUSEError`). -/
inductive Errno where
  | enoent
  | eexist
  | einval
  | eperm
  | enodata
  | eio
  | eremoteio
  | eisdir
  | enotdir
  | enotempty
deriving DecidableEq, Repr

/-- The four read-projection modes of the adapter (`FSMode` enum in fuse.py). -/
inductive FSMode where
  | meta
  | raw
  | orig
  | annot
deriving DecidableEq, Repr

/-- `str(mode)` in the source returns the enum member's name. -/
def FSMode.toName : FSMode → String
  | .meta => "meta"
  | .raw => "raw"
  | .orig => "orig"
  | .annot => "annot"

/-- `FSMode[command]`: lookup of an `FSMode` member by its name; `none` models
the `KeyError` branch. -/
def fsModeNamed : String → Option FSMode
  | "meta" => some FSMode.meta
  | "raw" => some FSMode.raw
  | "orig" => some FSMode.orig
  | "annot" => some FSMode.annot
  | _ => none

/-- Python `str.strip()`: drop whitespace from both ends. -/
def pyStrip (l : List Char) : List Char :=
  ((l.dropWhile Char.isWhitespace).reverse.dropWhile Char.isWhitespace).reverse

/-- Python `str.lower()` on the ASCII command strings the control file sees. -/
def pyLower (l : List Char) : List Char :=
  l.map Char.toLower

/-- `buf.decode('utf-8').strip().lower()` from `ModeFile.write`. -/
def pyCommand (buf : String) : String :=
  String.mk (pyLower (pyStrip buf.toList))

/-- The UTF-8 byte length of a string, i.e. `len(buf)` for the raw payload. -/
def utf8Len (s : String) : Nat :=
  s.toList.foldl (fun n c => n + c.utf8Size) 0

/-- Result of a successful `ModeFile.write`: the resulting global mode, whether
`invalidate_cache` was called, and the returned byte count (`len(buf)`). -/
structure ModeWriteResult where
  newMode : FSMode
  cacheInvalidated : Bool
  bytesWritten : Nat
deriving DecidableEq, Repr

/-- `ModeFile.write(offset, buf)` from fuse.py: the payload is decoded,
stripped and lower-cased; `refresh` invalidates the cache, a mode name switches
the global mode, anything else raises `FUSEError(EINVAL)`. -/
def modeFileWrite (mode : FSMode) (buf : String) : Except Errno ModeWriteResult :=
  let command := pyCommand buf
  if command = "refresh" then Except.ok ⟨mode, true, utf8Len buf⟩
  else
    match fsModeNamed command with
    | some m => Except.ok ⟨m, false, utf8Len buf⟩
    | none => Except.error Errno.einval

/-- The global `FSMode` after a `ModeFile.write`: on an error the assignment
`self._fs.mode = ...` was never executed, so the mode is unchanged. -/
def modeAfterWrite (mode : FSMode) (buf : String) : FSMode :=
  match modeFileWrite mode buf with
  | Except.ok r => r.newMode
  | Except.error _ => mode

/-- `ModeFile._raw_bytes`: the current mode name followed by a newline, the
content served by `ModeFile.raw`, `.contents` and `.annotated`. -/
def modeFileRawBytes (mode : FSMode) : String :=
  mode.toName ++ "\n"

/-- The ASCII single-quote character, as Python repr uses around enum values. -/
def pyQuote : Char := Char.ofNat 39

/-- `f'{item._metadata!r}\n'` for the control file: `ModeFile._metadata` is the
constant `FSMode.meta`, whose Python enum repr is `<FSMode.meta: `, a quoted
`meta`, and `>`, followed by the newline appended in `RmApiFS.open`. -/
def modeFileMetaRepr : String :=
  "<FSMode.meta: " ++ String.mk [pyQuote] ++ "meta" ++ String.mk [pyQuote] ++
    ">\n"

/-- The byte content `RmApiFS.open` (fuse.py:318-330) caches for a read of the
control file under each mode: in meta mode the repr dump of the file's
`_metadata` field plus a newline; in raw mode `ModeFile.raw`; in annot mode
`ModeFile.annotated` (the orig-on-notes comparison is false for the control
file, whose type is the string `mode`); in orig mode `ModeFile.contents` —
the last three all serve `_raw_bytes`, the mode name plus newline. -/
def modeFileReadContents (mode : FSMode) : String :=
  match mode with
  | FSMode.meta => modeFileMetaRepr
  | FSMode.raw => modeFileRawBytes mode
  | FSMode.orig => modeFileRawBytes mode
  | FSMode.annot => modeFileRawBytes mode

/-- Native document types of the remote store (rmcl `FileType`), as used by the
adapter: `notes`, `pdf`, `epub`. -/
inductive FileType where
  | notes
  | pdf
  | epub
deriving DecidableEq, Repr

/-- The textual name of a native type, as appended by `orig`-mode projection. -/
def FileType.toName : FileType → String
  | .notes => "notes"
  | .pdf => "pdf"
  | .epub => "epub"

/-- The three variants an addressable entity can have in the adapter:
a remote `Document` (with its native type), a remote `Folder`, or the
synthetic `.mode` control file. -/
inductive ItemKind where
  | document (dtype : FileType)
  | folder
  | modeFile
deriving DecidableEq, Repr

/-- A remote item as seen by the adapter: id, name, parent id (none at the
root), kind, children (meaningful for folders), last-modified time in
nanoseconds and the three content-projection sizes. -/
inductive Item where
  | mk (id : String) (name : String) (parent : Option String) (kind : ItemKind)
      (children : List Item) (mtimeNs : Nat) (rawSize : Nat) (origSize : Nat)
      (annotSize : Nat)

def Item.id : Item → String
  | .mk i _ _ _ _ _ _ _ _ => i

def Item.name : Item → String
  | .mk _ n _ _ _ _ _ _ _ => n

def Item.parent : Item → Option String
  | .mk _ _ p _ _ _ _ _ _ => p

def Item.kind : Item → ItemKind
  | .mk _ _ _ k _ _ _ _ _ => k

def Item.children : Item → List Item
  | .mk _ _ _ _ c _ _ _ _ => c

def Item.mtimeNs : Item → Nat
  | .mk _ _ _ _ _ t _ _ _ => t

def Item.rawSize : Item → Nat
  | .mk _ _ _ _ _ _ r _ _ => r

def Item.origSize : Item → Nat
  | .mk _ _ _ _ _ _ _ o _ => o

def Item.annotSize : Item → Nat
  | .mk _ _ _ _ _ _ _ _ a => a

/-- `ROOT_ID` from rmcl.const: the root item's id is the empty string. -/
def ROOT_ID : String := ""

/-- The synthetic `.mode` control file as an `Item`: id `MODE_ID`, name
`.mode`, parent the root id. -/
def modeFileItem : Item :=
  Item.mk "MODE_ID" ".mode" (some "") ItemKind.modeFile [] 0 0 0 0

/-- `RmApiFS.filename(item)` without a `pitem` argument: the projected,
filesystem-visible filename of an item under the active mode.  Folders and the
control file keep their bare name; documents get `.zip` in raw mode, `.pdf` in
annot mode or in orig mode for notes, their native type as extension in orig
mode otherwise, and the bare name in meta mode. -/
def filenameBase (mode : FSMode) (item : Item) : String :=
  match item.kind with
  | ItemKind.folder => item.name
  | ItemKind.modeFile => item.name
  | ItemKind.document t =>
    if mode = FSMode.raw then item.name ++ ".zip"
    else if mode = FSMode.annot ∨ (mode = FSMode.orig ∧ t = FileType.notes) then
      item.name ++ ".pdf"
    else if mode = FSMode.orig then item.name ++ "." ++ t.toName
    else item.name

/-- `RmApiFS.filename(item, pitem)`: relative to a directory `pitem`, the
directory itself is shown as `.`, its parent as `..`, anything else through
the projection. -/
def filename (mode : FSMode) (item : Item) (pitem : Option Item) : String :=
  match pitem with
  | none => filenameBase mode item
  | some p =>
    if item.id = p.id then "."
    else if p.parent = some item.id then ".."
    else filenameBase mode item

/-- Claim-side restatement of the name projection, written from the spec's
wording, to be compared with the code-side `filenameBase`. -/
def projectedNameSpec (mode : FSMode) (item : Item) : String :=
  match item.kind with
  | ItemKind.folder => item.name
  | ItemKind.modeFile => item.name
  | ItemKind.document t =>
    match mode with
    | FSMode.raw => item.name ++ ".zip"
    | FSMode.annot => item.name ++ ".pdf"
    | FSMode.orig =>
      if t = FileType.notes then item.name ++ ".pdf"
      else item.name ++ "." ++ t.toName
    | FSMode.meta => item.name

/-- `RmApiFS.get_by_name(p_inode, name)`: at the root the control file's name
resolves to the control file; otherwise the parent's children are scanned in
store order for the first child whose projected filename matches. -/
def getByName (mode : FSMode) (folder : Item) (name : String) : Option Item :=
  if folder.id = ROOT_ID ∧ name = ".mode" then some modeFileItem
  else folder.children.find? (fun c => filenameBase mode c == name)

/-- Association-list lookup keyed by a `Nat`, modelling a Python dict read. -/
def lookupA {α : Type} (l : List (Nat × α)) (k : Nat) : Option α :=
  (l.find? (fun p => p.1 == k)).map Prod.snd

/-- Python dict assignment `d[k] = v`: overwrite in place if the key exists,
append otherwise (insertion order is preserved). -/
def setA {α : Type} (l : List (Nat × α)) (k : Nat) (v : α) : List (Nat × α) :=
  if (lookupA l k).isSome then l.map (fun p => if p.1 == k then (k, v) else p)
  else l ++ [(k, v)]

/-- Python dict deletion `del d[k]` / `d.pop(k)`: drop the entry with key `k`. -/
def eraseA {α : Type} (l : List (Nat × α)) (k : Nat) : List (Nat × α) :=
  l.filter (fun p => !(p.1 == k))

/-- The pending document of a write session (`Document.new(basename, parent)`):
only its identity matters to the dispatcher. -/
structure WDoc where
  docId : String
  docName : String
deriving DecidableEq, Repr

/-- State consulted by `RmApiFS.read`: the per-inode cached read buffers and
the single, filesystem-wide `_prev_read_fail_count` counter. -/
structure ReadState where
  readBuffers : List (Nat × List Nat)
  prevReadFailCount : Nat
deriving DecidableEq, Repr

/-- `RmApiFS.read(fh, start, size)`: slice the cached buffer; an empty result
increments the global `_prev_read_fail_count` and raises `ENODATA` once the
counter exceeds 1; a non-empty result resets the counter to 0. -/
def readOp (s : ReadState) (fh start size : Nat) :
    ReadState × Except Errno (List Nat) :=
  match lookupA s.readBuffers fh with
  | none => (s, Except.error Errno.enodata)
  | some contents =>
    let retval := (contents.drop start).take size
    if retval.isEmpty then
      let c := s.prevReadFailCount + 1
      if 1 < c then ({ s with prevReadFailCount := c }, Except.error Errno.enodata)
      else ({ s with prevReadFailCount := c }, Except.ok retval)
    else ({ s with prevReadFailCount := 0 }, Except.ok retval)

/-- The write-session buffer splice of `RmApiFS.write`:
`data[:offset] + buf + data[offset + len(buf):]` with Python slice semantics
(slices clamp at the list length). -/
def spliceWrite (data : List Nat) (offset : Nat) (buf : List Nat) : List Nat :=
  data.take offset ++ buf ++ data.drop (offset + buf.length)

/-- Claim-side splice written from the spec's wording for C2: the gap between
the old buffer length and the write offset is implicitly zero-filled. -/
def spliceWriteZeroFillSpec (data : List Nat) (offset : Nat) (buf : List Nat) :
    List Nat :=
  data.take offset ++ List.replicate (offset - data.length) 0 ++ buf ++
    data.drop (offset + buf.length)

/-- The write-session part of the dispatcher state used by `RmApiFS.write`. -/
structure WriteState where
  writeBuffers : List (Nat × (WDoc × List Nat))
deriving DecidableEq, Repr

/-- `RmApiFS.write(fh, offset, buf)` on a non-control-file handle: splice into
the staged buffer and return `len(buf)` if a write session exists, raise
`EPERM` otherwise.  (A write to the control-file handle is dispatched to
`modeFileWrite` instead.) -/
def writeOp (s : WriteState) (fh offset : Nat) (buf : List Nat) :
    WriteState × Except Errno Nat :=
  match lookupA s.writeBuffers fh with
  | some (doc, data) =>
    ({ writeBuffers := setA s.writeBuffers fh (doc, spliceWrite data offset buf) },
      Except.ok buf.length)
  | none => (s, Except.error Errno.eperm)

/-- Byte sequence of the `%PDF` signature sniffed by `RmApiFS.release`. -/
def pdfMagic : List Nat := "%PDF".toList.map Char.toNat

/-- Byte sequence of the EPUB signature sniffed by `RmApiFS.release`. -/
def epubSig : List Nat := "mimetypeapplication/epub+zip".toList.map Char.toNat

/-- Python `sub in data` on byte strings: `pat` occurs contiguously in the
second argument. -/
def containsSeq (pat : List Nat) : List Nat → Bool
  | [] => pat.isEmpty
  | a :: rest => pat.isPrefixOf (a :: rest) || containsSeq pat rest

/-- State touched by `RmApiFS.release`: handle reference counts (a defaultdict,
modelled as a total function), read buffers, staged write sessions and the
in-flight upload table. -/
structure RelState where
  fhCount : Nat → Nat
  readBuffers : List (Nat × List Nat)
  writeBuffers : List (Nat × (WDoc × List Nat))
  uploading : List (Nat × WDoc)

/-- Outcome of `RmApiFS.release`: the final state, the raised error (if any),
and the list of `document.upload(data, type)` calls that were issued. -/
structure ReleaseResult where
  state : RelState
  result : Except Errno Unit
  uploads : List (WDoc × FileType × List Nat)

/-- `RmApiFS.release(fh)`: decrement the reference count and return early while
it stays positive; at zero drop the read buffer, pop the staged write buffer,
sniff the content type (`%PDF` prefix, else EPUB signature in the first 100
bytes, else `EIO` without uploading), issue the upload (tracked in `uploading`
for its duration) and map an `ApiError` — modelled by `uploadOk = false` — to
`EREMOTEIO`. -/
def releaseOp (s : RelState) (fh : Nat) (uploadOk : Bool) : ReleaseResult :=
  let s1 := if 0 < s.fhCount fh then
      { s with fhCount := fun i => if i = fh then s.fhCount fh - 1 else s.fhCount i }
    else s
  if 0 < s1.fhCount fh then ⟨s1, Except.ok (), []⟩
  else
    let s2 := { s1 with readBuffers := eraseA s1.readBuffers fh }
    match lookupA s2.writeBuffers fh with
    | none => ⟨s2, Except.ok (), []⟩
    | some (doc, data) =>
      let s3 := { s2 with writeBuffers := eraseA s2.writeBuffers fh }
      if pdfMagic.isPrefixOf data then
        ⟨{ s3 with uploading := eraseA (setA s3.uploading fh doc) fh },
          (if uploadOk then Except.ok () else Except.error Errno.eremoteio),
          [(doc, FileType.pdf, data)]⟩
      else if containsSeq epubSig (data.take 100) then
        ⟨{ s3 with uploading := eraseA (setA s3.uploading fh doc) fh },
          (if uploadOk then Except.ok () else Except.error Errno.eremoteio),
          [(doc, FileType.epub, data)]⟩
      else ⟨s3, Except.error Errno.eio, []⟩

/-- The inode ↔ item-id table of `RmApiFS`: the `bidict` plus the
`_next_inode` counter. -/
structure Registry where
  nextInode : Nat
  pairs : List (Nat × String)
deriving DecidableEq, Repr

/-- The registry before `RmApiFS.__init__` binds anything: `_next_inode`
starts at the runtime's `ROOT_INODE`, which is 1. -/
def Registry.empty0 : Registry := { nextInode := 1, pairs := [] }

/-- `RmApiFS.next_inode()`: return the counter and increment it. -/
def Registry.alloc (r : Registry) : Registry × Nat :=
  ({ r with nextInode := r.nextInode + 1 }, r.nextInode)

/-- `self.inode_map[inode] = id_`: bind a fresh inode to an item id. -/
def Registry.bind0 (r : Registry) (inode : Nat) (id_ : String) : Registry :=
  { r with pairs := r.pairs ++ [(inode, id_)] }

/-- The registry right after `RmApiFS.__init__`: inode 1 bound to the root id
(the empty string) and inode 2 bound to the control file's `MODE_ID`. -/
def Registry.init : Registry :=
  let p1 := Registry.empty0.alloc
  let r2 := p1.1.bind0 p1.2 ""
  let p2 := r2.alloc
  p2.1.bind0 p2.2 "MODE_ID"

/-- `RmApiFS.get_id(inode)`: forward lookup; `none` models the `KeyError` for
an unknown inode. -/
def Registry.getId (r : Registry) (inode : Nat) : Option String :=
  lookupA r.pairs inode

/-- Reverse lookup `self.inode_map.inverse`, as an option. -/
def Registry.findInode (r : Registry) (id_ : String) : Option Nat :=
  (r.pairs.find? (fun p => p.2 == id_)).map Prod.fst

/-- `RmApiFS.get_inode(id_)`: return the existing inode for an id, binding the
id to a freshly allocated inode first if absent. -/
def Registry.getInode (r : Registry) (id_ : String) : Registry × Nat :=
  match r.findInode id_ with
  | some i => (r, i)
  | none =>
    let p := r.alloc
    (p.1.bind0 p.2 id_, p.2)

/-- The registry invariant: every bound inode is below the allocation counter,
and the table is a bijection (no inode and no item id occurs twice). -/
def Registry.Inv (r : Registry) : Prop :=
  (∀ p ∈ r.pairs, p.1 < r.nextInode) ∧ (r.pairs.map Prod.fst).Nodup ∧
    (r.pairs.map Prod.snd).Nodup

instance (r : Registry) : Decidable r.Inv := by
  unfold Registry.Inv; infer_instance

/-- POSIX regular-file type bit (`stat.S_IFREG`). -/
def S_IFREG : Nat := 0x8000

/-- POSIX directory type bit (`stat.S_IFDIR`). -/
def S_IFDIR : Nat := 0x4000

/-- The fields of `fuse.EntryAttributes` that `RmApiFS._getattr` fills in. -/
structure EntryAttributes where
  stMode : Nat
  stSize : Nat
  stAtimeNs : Nat
  stCtimeNs : Nat
  stMtimeNs : Nat
  stIno : Nat
deriving DecidableEq, Repr

/-- `RmApiFS._getattr(inode)`: an inode with a staged write buffer reports a
regular file of size 0 stamped with the current time; otherwise the resolved
item determines type bits, a mode-dependent size and a stamp from its mtime. -/
def getattrOp (mode : FSMode) (nowNs : Nat) (inWriteBuffers : Bool)
    (item : Item) (inode : Nat) : EntryAttributes :=
  if inWriteBuffers then
    { stMode := S_IFREG ||| 0o644, stSize := 0, stAtimeNs := nowNs,
      stCtimeNs := nowNs, stMtimeNs := nowNs, stIno := inode }
  else
    let stamp := item.mtimeNs
    match item.kind with
    | ItemKind.document t =>
      { stMode := S_IFREG ||| 0o444,
        stSize :=
          if mode = FSMode.raw then item.rawSize
          else if mode = FSMode.annot ∨ (mode = FSMode.orig ∧ t = FileType.notes) then
            item.annotSize
          else if mode = FSMode.orig then item.origSize
          else 0,
        stAtimeNs := stamp, stCtimeNs := stamp, stMtimeNs := stamp, stIno := inode }
    | ItemKind.folder =>
      { stMode := S_IFDIR ||| 0o755, stSize := 0, stAtimeNs := stamp,
        stCtimeNs := stamp, stMtimeNs := stamp, stIno := inode }
    | ItemKind.modeFile =>
      { stMode := S_IFREG ||| 0o644, stSize := utf8Len (modeFileRawBytes mode),
        stAtimeNs := stamp, stCtimeNs := stamp, stMtimeNs := stamp, stIno := inode }

/-- `name_new.rsplit(b'.', 1)[0]` on a list of characters: everything before
the last dot, or the whole input when there is no dot. -/
def rsplitBaseList (l : List Char) : List Char :=
  match l.reverse.dropWhile (fun c => c != '.') with
  | [] => l
  | _ :: rest => rest.reverse

/-- `name_new.rsplit('.', 1)[0]` on strings. -/
def rsplitBase (s : String) : String :=
  String.mk (rsplitBaseList s.toList)

/-- `name.rsplit('.', 1)` destructured into `basename, ext`: `none` models the
`ValueError` raised by unpacking when the name contains no dot. -/
def rsplitDotPair (l : List Char) : Option (List Char × List Char) :=
  match l.reverse.dropWhile (fun c => c != '.') with
  | [] => none
  | _ :: rest =>
    some (rest.reverse, (l.reverse.takeWhile (fun c => c != '.')).reverse)

/-- How the remote store answers a committing call (`update_metadata`,
`upload`): success, an `ApiError`, or a `VirtualItemError` (the
`AttributeError` raised by assigning to the control file's read-only
properties is mapped identically, so it is folded in here). -/
inductive StoreOutcome where
  | ok
  | apiError
  | virtualItemError
deriving DecidableEq, Repr

/-- `RmApiFS.rename`: resolve the source name (`ENOENT` if absent), strip the
extension after the last dot from the new name, reject with `EEXIST` when the
destination parent differs and the destination name already resolves there,
then hand the bare name and the new parent id to `update_metadata`, mapping
`ApiError` to `EREMOTEIO` and `VirtualItemError`/`AttributeError` to `EPERM`.
On success the pair passed to the store is returned. -/
def renameOp (mode : FSMode) (oldParent newParent : Item)
    (nameOld nameNew : String) (outcome : StoreOutcome) :
    Except Errno (String × String) :=
  match getByName mode oldParent nameOld with
  | none => Except.error Errno.enoent
  | some _ =>
    let basename := rsplitBase nameNew
    if oldParent.id ≠ newParent.id ∧ (getByName mode newParent nameNew).isSome then
      Except.error Errno.eexist
    else
      match outcome with
      | StoreOutcome.ok => Except.ok (basename, newParent.id)
      | StoreOutcome.apiError => Except.error Errno.eremoteio
      | StoreOutcome.virtualItemError => Except.error Errno.eperm

/-- Possible outcomes of `RmApiFS.create`: an uncaught Python `ValueError`
(from unpacking `name.rsplit('.', 1)`), a `FUSEError`, or a normal return
carrying the basename and extension the document was created from. -/
inductive CreateOutcome where
  | pyValueError
  | fuseError (e : Errno)
  | created (basename ext : String)
deriving DecidableEq, Repr

/-- `RmApiFS.create(p_inode, name, ...)`: an existing name raises `EEXIST`;
otherwise the name is split at its last dot — a dotless name makes the
unpacking raise `ValueError` — and a new document is staged. -/
def createOp (mode : FSMode) (parent : Item) (name : String) : CreateOutcome :=
  if (getByName mode parent name).isSome then CreateOutcome.fuseError Errno.eexist
  else
    match rsplitDotPair name.toList with
    | none => CreateOutcome.pyValueError
    | some (b, e) => CreateOutcome.created (String.mk b) (String.mk e)

/-- `RmApiFS._readdir_entries(inode)`: the directory itself, then its parent
(when it has one, fetched from the store), then the control file (at the root
only), then the children in store order. -/
def readdirEntries (store : String → Item) (item : Item) : List Item :=
  [item] ++
    (match item.parent with
     | some pid => [store pid]
     | none => []) ++
    (if item.name = "" then [modeFileItem] else []) ++ item.children

/-- The `enumerate(direntries[start_id:])` reply loop of `RmApiFS.readdir`:
each entry is reported with its name relative to the directory and the
continuation token `start_id + i + 1`. -/
def readdirLoop (mode : FSMode) (dirItem : Item) : List Item → Nat → List (String × Nat)
  | [], _ => []
  | c :: cs, tok => (filename mode c (some dirItem), tok + 1) :: readdirLoop mode dirItem cs (tok + 1)

/-- `RmApiFS.readdir(inode, start_id)`: replay the entry list from the offset
token. -/
def readdirOp (mode : FSMode) (store : String → Item) (item : Item)
    (startId : Nat) : List (String × Nat) :=
  readdirLoop mode item ((readdirEntries store item).drop startId) startId

/-- A concrete folder child used as a witness input. -/
def demoFolderChild : Item :=
  Item.mk "f1" "foo" (some "") ItemKind.folder [] 0 0 0 0

/-- A concrete document child used as a witness input. -/
def demoDocChild : Item :=
  Item.mk "d1" "story" (some "") (ItemKind.document FileType.pdf) [] 0 0 0 0

/-- A concrete root folder used as a witness input. -/
def demoRoot : Item :=
  Item.mk "" "" none ItemKind.folder [demoFolderChild] 0 0 0 0

/-- A concrete document with distinct projection sizes, used as a witness
input. -/
def demoSizedDoc : Item :=
  Item.mk "d9" "n" none (ItemKind.document FileType.pdf) [] 55 10 20 30

/-- A concrete release-time state with one open handle holding a staged
PDF write buffer, used as a witness input. -/
def c3State : RelState :=
  { fhCount := fun _ => 1, readBuffers := [],
    writeBuffers := [(4, (⟨"dd", "report"⟩, pdfMagic ++ [10]))], uploading := [] }

end RMfuse

namespace RMfuse

/-- A fresh empty read of a buffer, seen while the global failure counter is
zero, returns zero bytes successfully and bumps the counter to one. -/
theorem readOp_empty_first (s : ReadState) (fh start size : Nat)
    (contents : List Nat) (hbuf : lookupA s.readBuffers fh = some contents)
    (h : (contents.drop start).take size = []) (hc : s.prevReadFailCount = 0) :
    readOp s fh start size = ({ s with prevReadFailCount := 1 }, Except.ok []) := by
  simp [readOp, hbuf, h, hc]

/-- An empty read while the global failure counter is already positive raises
`ENODATA`. -/
theorem readOp_empty_again (s : ReadState) (fh start size : Nat)
    (contents : List Nat) (hbuf : lookupA s.readBuffers fh = some contents)
    (h : (contents.drop start).take size = []) (hc : 1 ≤ s.prevReadFailCount) :
    (readOp s fh start size).2 = Except.error Errno.enodata := by
  have h1 : (1 : Nat) < s.prevReadFailCount + 1 := by omega
  simp [readOp, hbuf, h, h1]

/-- A read that returns at least one byte resets the global failure counter. -/
theorem readOp_nonempty (s : ReadState) (fh start size : Nat)
    (contents : List Nat) (hbuf : lookupA s.readBuffers fh = some contents)
    (h : (contents.drop start).take size ≠ []) :
    readOp s fh start size =
      ({ s with prevReadFailCount := 0 }, Except.ok ((contents.drop start).take size)) := by
  simp [readOp, hbuf, h]

/-- C1, counterexample: the empty-read failure counter is a single
filesystem-wide counter, not a per-handle one.  With two open handles whose
buffers are both at EOF, a first zero-byte read at handle 1 succeeds, but then
the very first zero-byte read ever made at handle 2 fails with `ENODATA` —
although in the initial state that same read at handle 2 would have
succeeded. -/
theorem C1_counterexample :
    (readOp ⟨[(1, []), (2, [])], 0⟩ 1 0 4096).2 = Except.ok [] ∧
    (readOp ⟨[(1, []), (2, [])], 0⟩ 2 0 4096).2 = Except.ok [] ∧
    (readOp ⟨[(1, []), (2, [])], 0⟩ 1 0 4096).1 = ⟨[(1, []), (2, [])], 1⟩ ∧
    (readOp (readOp ⟨[(1, []), (2, [])], 0⟩ 1 0 4096).1 2 0 4096).2 =
      Except.error Errno.enodata := by
  decide

/-- C1 (amended): the zero-byte-read condition is tracked in one global
counter shared by all handles.  A zero-byte read succeeds silently exactly
when no zero-byte read has happened since the last non-empty read anywhere in
the filesystem, and it sets the counter; while the counter is positive any
zero-byte read — in particular a second consecutive one at the same handle —
fails with `ENODATA`; a read returning at least one byte at any handle resets
the counter, so the next single empty read succeeds again. -/
theorem C1_read_empty_counter (s : ReadState) (fh start size : Nat)
    (contents : List Nat) (hbuf : lookupA s.readBuffers fh = some contents) :
    ((contents.drop start).take size = [] → s.prevReadFailCount = 0 →
      readOp s fh start size = ({ s with prevReadFailCount := 1 }, Except.ok [])) ∧
    ((contents.drop start).take size = [] → 1 ≤ s.prevReadFailCount →
      (readOp s fh start size).2 = Except.error Errno.enodata) ∧
    ((contents.drop start).take size ≠ [] →
      readOp s fh start size =
        ({ s with prevReadFailCount := 0 },
          Except.ok ((contents.drop start).take size))) ∧
    ((contents.drop start).take size = [] → s.prevReadFailCount = 0 →
      (readOp (readOp s fh start size).1 fh start size).2 =
        Except.error Errno.enodata) := by
  refine ⟨readOp_empty_first s fh start size contents hbuf,
          readOp_empty_again s fh start size contents hbuf,
          readOp_nonempty s fh start size contents hbuf, ?_⟩
  intro h hc
  rw [readOp_empty_first s fh start size contents hbuf h hc]
  exact readOp_empty_again _ fh start size contents hbuf h (by simp)

/-- Witness for C1 at a one-byte buffer read past EOF: the first empty read
succeeds and the immediately following empty read at the same handle fails. -/
theorem C1_witness :
    readOp (⟨[(5, [7])], 0⟩ : ReadState) 5 1 4096 =
      (⟨[(5, [7])], 1⟩, Except.ok []) ∧
    (readOp (readOp (⟨[(5, [7])], 0⟩ : ReadState) 5 1 4096).1 5 1 4096).2 =
      Except.error Errno.enodata := by
  have h := C1_read_empty_counter (⟨[(5, [7])], 0⟩ : ReadState) 5 1 4096 [7] (by decide)
  exact ⟨(h.1 (by decide) rfl).trans (by decide), h.2.2.2 (by decide) rfl⟩

/-- C2, counterexample: a write at an offset strictly beyond the current
buffer length does not zero-fill the gap — Python slices clamp, so the new
bytes land directly after the old ones.  Writing one byte at offset 5 into an
empty staged buffer yields a one-byte buffer, not the six-byte zero-padded
buffer the claim describes. -/
theorem C2_counterexample :
    writeOp ⟨[(7, (⟨"d1", "doc"⟩, []))]⟩ 7 5 [49] =
      (⟨[(7, (⟨"d1", "doc"⟩, [49]))]⟩, Except.ok 1) ∧
    spliceWriteZeroFillSpec [] 5 [49] = [0, 0, 0, 0, 0, 49] ∧
    spliceWrite [] 5 [49] ≠ spliceWriteZeroFillSpec [] 5 [49] := by
  decide

/-- C2 (amended): a write into an existing write-session buffer replaces the
buffer with `data[:offset] + buf + data[offset + len(buf):]` under Python
slice semantics — both slices clamp at the buffer length, so a gap between the
old length and the offset is not zero-filled: a write at an offset at or past
the end appends the new bytes directly after the old ones.  The call returns
`len(buf)`. -/
theorem C2_write_splice (s : WriteState) (fh offset : Nat) (buf : List Nat)
    (doc : WDoc) (data : List Nat)
    (h : lookupA s.writeBuffers fh = some (doc, data)) :
    writeOp s fh offset buf =
      ({ writeBuffers := setA s.writeBuffers fh
          (doc, data.take offset ++ buf ++ data.drop (offset + buf.length)) },
        Except.ok buf.length) ∧
    (data.length ≤ offset →
      data.take offset ++ buf ++ data.drop (offset + buf.length) = data ++ buf) := by
  constructor
  · simp [writeOp, h, spliceWrite]
  · intro hle
    rw [List.take_of_length_le hle, List.drop_eq_nil_of_le (by omega)]
    simp

/-- Witness for C2: overwriting the second byte of a two-byte staged buffer. -/
theorem C2_witness :
    writeOp ⟨[(3, (⟨"d2", "n"⟩, [10, 11]))]⟩ 3 1 [99] =
      (⟨[(3, (⟨"d2", "n"⟩, [10, 99]))]⟩, Except.ok 1) :=
  ((C2_write_splice ⟨[(3, (⟨"d2", "n"⟩, [10, 11]))]⟩ 3 1 [99] ⟨"d2", "n"⟩ [10, 11]
    (by decide)).1).trans (by decide)

/-- A string names an `FSMode` member exactly when it is that member's name. -/
theorem fsModeNamed_eq_some (s : String) (m : FSMode) :
    fsModeNamed s = some m ↔ s = m.toName := by
  cases m <;>
    refine ⟨fun h => ?_, fun h => by subst h; rfl⟩ <;>
    (unfold fsModeNamed at h; split at h <;> simp_all [FSMode.toName])

/-- C4, counterexample: after writing the payload `meta` — one of the four
mode names the claim enumerates, so the write succeeds and switches the mode —
reading the control file does not return the mode name plus newline: in meta
mode `RmApiFS.open` caches the repr dump of the file's `_metadata` field
instead. -/
theorem C4_counterexample :
    modeFileWrite FSMode.annot "meta" =
      Except.ok ⟨FSMode.meta, false, 4⟩ ∧
    modeFileReadContents (modeAfterWrite FSMode.annot "meta") =
      modeFileMetaRepr ∧
    modeFileReadContents (modeAfterWrite FSMode.annot "meta") ≠ "meta\n" := by
  decide

/-- C4 (amended): a control-file write whose payload case-insensitively trims
to `refresh` invalidates the cache and succeeds with the mode unchanged; a
payload that trims to one of the four mode names switches the global mode to
it and succeeds; any other payload fails with `EINVAL` and leaves the mode
unchanged; reading the control file afterwards yields the current mode name
followed by a newline whenever the resulting mode is raw, orig or annot,
while in meta mode the read serves the repr dump of the control file's
constant metadata field followed by a newline. -/
theorem C4_mode_write (mode : FSMode) (buf : String) :
    (pyCommand buf = "refresh" →
      modeFileWrite mode buf = Except.ok ⟨mode, true, utf8Len buf⟩ ∧
      modeAfterWrite mode buf = mode) ∧
    (∀ m : FSMode, pyCommand buf = m.toName →
      modeFileWrite mode buf = Except.ok ⟨m, false, utf8Len buf⟩ ∧
      modeAfterWrite mode buf = m) ∧
    (pyCommand buf ≠ "refresh" → (∀ m : FSMode, pyCommand buf ≠ m.toName) →
      modeFileWrite mode buf = Except.error Errno.einval ∧
      modeAfterWrite mode buf = mode) ∧
    (modeAfterWrite mode buf ≠ FSMode.meta →
      modeFileReadContents (modeAfterWrite mode buf) =
        (modeAfterWrite mode buf).toName ++ "\n") ∧
    (modeAfterWrite mode buf = FSMode.meta →
      modeFileReadContents (modeAfterWrite mode buf) = modeFileMetaRepr) := by
  refine ⟨?_, ?_, ?_, ?_, ?_⟩
  · intro h
    simp [modeFileWrite, modeAfterWrite, h]
  · intro m h
    have hne : pyCommand buf ≠ "refresh" := by
      rw [h]; cases m <;> decide
    rw [show modeFileWrite mode buf =
        (match fsModeNamed (pyCommand buf) with
         | some m => Except.ok ⟨m, false, utf8Len buf⟩
         | none => Except.error Errno.einval) by
      simp [modeFileWrite, hne]]
    rw [(fsModeNamed_eq_some (pyCommand buf) m).2 h]
    simp [modeAfterWrite, modeFileWrite, hne, (fsModeNamed_eq_some (pyCommand buf) m).2 h]
  · intro h1 h2
    have hnone : fsModeNamed (pyCommand buf) = none := by
      cases hm : fsModeNamed (pyCommand buf) with
      | none => rfl
      | some m => exact absurd ((fsModeNamed_eq_some _ m).1 hm) (h2 m)
    simp [modeFileWrite, modeAfterWrite, h1, hnone]
  · intro hne
    cases hm : modeAfterWrite mode buf with
    | meta => exact absurd hm hne
    | raw => rfl
    | orig => rfl
    | annot => rfl
  · intro hm
    rw [hm]
    rfl

/-- Witness for C4: writing a mixed-case, whitespace-padded mode name switches
the mode, and the control file then reads back the new mode name. -/
theorem C4_witness :
    modeFileWrite FSMode.meta " ANNOT " = Except.ok ⟨FSMode.annot, false, 7⟩ ∧
    modeFileReadContents (modeAfterWrite FSMode.meta " ANNOT ") = "annot\n" := by
  have h := C4_mode_write FSMode.meta " ANNOT "
  have h1 := (h.2.1 FSMode.annot (by decide)).1
  have h2 := h.2.2.2.1 (by decide)
  exact ⟨h1.trans (by decide), h2.trans (by decide)⟩

/-- C6: the projected filename agrees with the spec's description — bare names
for folders and the control file in every mode; for documents `.zip` in raw
mode, `.pdf` in annot mode or in orig mode for notes, the native type as
extension in orig mode otherwise, and the bare name in meta mode. -/
theorem C6_filename_projection (mode : FSMode) (item : Item) :
    filename mode item none = projectedNameSpec mode item := by
  cases item with
  | mk i n p k c t r o a =>
    cases k with
    | document dt => cases mode <;> cases dt <;> rfl
    | folder => rfl
    | modeFile => rfl

/-- C7: getattr reports, for an inode with a staged write buffer, a regular
file of size 0 stamped three times with the current time; otherwise identical
access/change/modify stamps from the item's mtime, with the size determined by
the item kind and the active mode — documents by projection size, folders 0,
and the control file the length of the mode name plus the newline. -/
theorem C7_getattr (mode : FSMode) (nowNs : Nat) (item : Item) (inode : Nat) :
    (getattrOp mode nowNs true item inode =
      { stMode := S_IFREG ||| 0o644, stSize := 0, stAtimeNs := nowNs,
        stCtimeNs := nowNs, stMtimeNs := nowNs, stIno := inode }) ∧
    ((getattrOp mode nowNs false item inode).stAtimeNs = item.mtimeNs ∧
     (getattrOp mode nowNs false item inode).stCtimeNs = item.mtimeNs ∧
     (getattrOp mode nowNs false item inode).stMtimeNs = item.mtimeNs) ∧
    (∀ t, item.kind = ItemKind.document t →
      (getattrOp mode nowNs false item inode).stMode = S_IFREG ||| 0o444 ∧
      (getattrOp mode nowNs false item inode).stSize =
        (match mode, t with
         | FSMode.raw, _ => item.rawSize
         | FSMode.annot, _ => item.annotSize
         | FSMode.orig, FileType.notes => item.annotSize
         | FSMode.orig, _ => item.origSize
         | FSMode.meta, _ => 0)) ∧
    (item.kind = ItemKind.folder →
      (getattrOp mode nowNs false item inode).stMode = S_IFDIR ||| 0o755 ∧
      (getattrOp mode nowNs false item inode).stSize = 0) ∧
    (item.kind = ItemKind.modeFile →
      (getattrOp mode nowNs false item inode).stMode = S_IFREG ||| 0o644 ∧
      (getattrOp mode nowNs false item inode).stSize = mode.toName.length + 1) := by
  cases item with
  | mk i n p k c t r o a =>
    refine ⟨rfl, ?_, ?_, ?_, ?_⟩
    · cases k <;> exact ⟨rfl, rfl, rfl⟩
    · intro dt hk
      cases k with
      | document k0 =>
        cases hk
        refine ⟨rfl, ?_⟩
        cases mode <;> cases dt <;> rfl
      | folder => cases hk
      | modeFile => cases hk
    · intro hk
      cases k with
      | document k0 => cases hk
      | folder => exact ⟨rfl, rfl⟩
      | modeFile => cases hk
    · intro hk
      cases k with
      | document k0 => cases hk
      | folder => cases hk
      | modeFile =>
        refine ⟨rfl, ?_⟩
        show utf8Len (modeFileRawBytes mode) = mode.toName.length + 1
        cases mode <;> decide
/-- Witness for C7: a staged write buffer reports size 0 with the current
stamp, and a pdf document in raw mode reports its raw size. -/
theorem C7_witness :
    getattrOp FSMode.raw 123 true demoSizedDoc 9 =
      { stMode := S_IFREG ||| 0o644, stSize := 0, stAtimeNs := 123,
        stCtimeNs := 123, stMtimeNs := 123, stIno := 9 } ∧
    (getattrOp FSMode.raw 123 false demoSizedDoc 9).stSize = 10 := by
  have h := C7_getattr FSMode.raw 123 demoSizedDoc 9
  exact ⟨h.1, ((h.2.2.1 FileType.pdf rfl).2).trans (by decide)⟩

end RMfuse

namespace RMfuse

/-- Dropping from an appended list skips a first block that satisfies the
predicate everywhere. -/
theorem dropWhile_append_of_forall {α : Type} (p : α → Bool) (l1 l2 : List α)
    (h : ∀ c ∈ l1, p c = true) :
    (l1 ++ l2).dropWhile p = l2.dropWhile p := by
  induction l1 with
  | nil => rfl
  | cons a as ih =>
    rw [List.cons_append, List.dropWhile_cons]
    simp only [h a (List.mem_cons_self a as), if_true]
    exact ih (fun c hc => h c (List.mem_cons_of_mem a hc))

/-- Scanning past everything different from `x` consumes the whole list
exactly when `x` does not occur. -/
theorem dropWhile_ne_eq_nil_iff (x : Char) (l : List Char) :
    l.dropWhile (fun c => c != x) = [] ↔ x ∉ l := by
  induction l with
  | nil => simp
  | cons a as ih =>
    by_cases hax : a = x
    · subst hax
      simp [List.dropWhile_cons]
    · simp [List.dropWhile_cons, hax, ih, Ne.symm hax]

/-- A name with no dot makes `rsplit('.', 1)` produce a single part, so the
two-variable unpacking raises `ValueError`. -/
theorem rsplitDotPair_of_not_mem (l : List Char) (h : '.' ∉ l) :
    rsplitDotPair l = none := by
  unfold rsplitDotPair
  rw [(dropWhile_ne_eq_nil_iff '.' l.reverse).mpr (by simpa using h)]

/-- A successful two-way split implies the name contained a dot. -/
theorem rsplitDotPair_mem (l b e : List Char)
    (h : rsplitDotPair l = some (b, e)) : '.' ∈ l := by
  by_contra hm
  rw [rsplitDotPair_of_not_mem l hm] at h
  cases h

/-- Splitting off an extension after the last dot: when the extension itself
has no dot, `rsplit('.', 1)[0]` recovers exactly the base part. -/
theorem rsplitBaseList_append (s t : List Char) (h : '.' ∉ t) :
    rsplitBaseList (s ++ '.' :: t) = s := by
  unfold rsplitBaseList
  have hrev : (s ++ '.' :: t).reverse = t.reverse ++ '.' :: s.reverse := by
    simp
  rw [hrev, dropWhile_append_of_forall _ t.reverse ('.' :: s.reverse) ?hall]
  · rw [List.dropWhile_cons]
    simp
  case hall =>
    intro c hc
    have hne : c ≠ '.' := by
      intro he
      subst he
      exact h (List.mem_reverse.mp hc)
    simpa using hne

/-- String-level version of `rsplitBaseList_append`. -/
theorem rsplitBase_append (s t : String) (h : '.' ∉ t.toList) :
    rsplitBase (s ++ "." ++ t) = s := by
  unfold rsplitBase
  have hl : (s ++ "." ++ t).toList = s.toList ++ '.' :: t.toList := by
    simp [String.toList, String.data_append]
  rw [hl, rsplitBaseList_append _ _ h]
  rfl

/-- Looking up a key right after deleting it fails. -/
theorem lookupA_eraseA_self {α : Type} (l : List (Nat × α)) (k : Nat) :
    lookupA (eraseA l k) k = none := by
  induction l with
  | nil => rfl
  | cons a as ih =>
    by_cases hk : a.1 = k <;>
      simp [eraseA, lookupA, List.filter_cons, List.find?_cons, hk] at ih ⊢

/-- C10, counterexample: a dotless name does not always raise `ValueError` —
when the name resolves to an existing entry (here a folder, whose projected
name is always bare), `create` raises the mapped POSIX error `EEXIST` before
ever splitting the name. -/
theorem C10_counterexample :
    createOp FSMode.annot demoRoot "foo" = CreateOutcome.fuseError Errno.eexist ∧
    ('.' ∉ "foo".toList) ∧
    createOp FSMode.annot demoRoot "foo" ≠ CreateOutcome.pyValueError := by
  decide

/-- C10 (amended): for every create call whose requested name does not resolve
to an existing entry in the parent and contains no dot, the split of the name
into base and extension raises an uncaught `ValueError`; and `create` returns
normally only when the name contains at least one dot. -/
theorem C10_create_dotless (mode : FSMode) (parent : Item) (name : String) :
    (getByName mode parent name = none → '.' ∉ name.toList →
      createOp mode parent name = CreateOutcome.pyValueError) ∧
    (∀ b e, createOp mode parent name = CreateOutcome.created b e →
      '.' ∈ name.toList) := by
  constructor
  · intro hno hdot
    unfold createOp
    rw [if_neg (by simp [hno]), rsplitDotPair_of_not_mem name.toList hdot]
  · intro b e hc
    unfold createOp at hc
    by_cases hex : (getByName mode parent name).isSome = true
    · rw [if_pos hex] at hc
      cases hc
    · rw [if_neg hex] at hc
      cases hd : rsplitDotPair name.toList with
      | none => rw [hd] at hc; cases hc
      | some pr =>
        exact rsplitDotPair_mem _ pr.1 pr.2 (by rw [hd])

/-- Witness for C10: a fresh dotless name reaches the unpacking and raises
`ValueError`. -/
theorem C10_witness :
    getByName FSMode.annot demoRoot "bar" = none ∧
    createOp FSMode.annot demoRoot "bar" = CreateOutcome.pyValueError :=
  ⟨rfl, (C10_create_dotless FSMode.annot demoRoot "bar").1 rfl (by decide)⟩

/-- C8: rename fails with `ENOENT` when the source name does not resolve, with
`EEXIST` when the destination parent differs and the destination name already
resolves there; otherwise the new name is stripped of its extension after the
last dot and handed, with the new parent id, to the store's metadata update,
an `ApiError` mapping to `EREMOTEIO` and a virtual-item violation to
`EPERM`. -/
theorem C8_rename_checks (mode : FSMode) (oldParent newParent : Item)
    (nameOld nameNew : String) (outcome : StoreOutcome) :
    (getByName mode oldParent nameOld = none →
      renameOp mode oldParent newParent nameOld nameNew outcome =
        Except.error Errno.enoent) ∧
    ((getByName mode oldParent nameOld).isSome = true →
      oldParent.id ≠ newParent.id →
      (getByName mode newParent nameNew).isSome = true →
      renameOp mode oldParent newParent nameOld nameNew outcome =
        Except.error Errno.eexist) ∧
    ((getByName mode oldParent nameOld).isSome = true →
      ¬(oldParent.id ≠ newParent.id ∧ (getByName mode newParent nameNew).isSome) →
      (outcome = StoreOutcome.ok →
        renameOp mode oldParent newParent nameOld nameNew outcome =
          Except.ok (rsplitBase nameNew, newParent.id)) ∧
      (outcome = StoreOutcome.apiError →
        renameOp mode oldParent newParent nameOld nameNew outcome =
          Except.error Errno.eremoteio) ∧
      (outcome = StoreOutcome.virtualItemError →
        renameOp mode oldParent newParent nameOld nameNew outcome =
          Except.error Errno.eperm)) ∧
    (∀ bs ext : String, '.' ∉ ext.toList →
      rsplitBase (bs ++ "." ++ ext) = bs) := by
  refine ⟨?_, ?_, ?_, fun bs ext h => rsplitBase_append bs ext h⟩
  · intro h
    simp [renameOp, h]
  · intro h1 h2 h3
    obtain ⟨it, hit⟩ := Option.isSome_iff_exists.mp h1
    simp [renameOp, hit, h2, h3]
  · intro h1 h2
    obtain ⟨it, hit⟩ := Option.isSome_iff_exists.mp h1
    refine ⟨?_, ?_, ?_⟩ <;> intro ho <;> subst ho <;> simp [renameOp, hit, h2]

/-- Witness for C8: renaming the folder `foo` to `bar.pdf` within the root
strips the synthesized extension and hands `bar` with the root id to the
store. -/
theorem C8_witness :
    renameOp FSMode.annot demoRoot demoRoot "foo" "bar.pdf" StoreOutcome.ok =
      Except.ok ("bar", "") := by
  have h := C8_rename_checks FSMode.annot demoRoot demoRoot "foo" "bar.pdf"
    StoreOutcome.ok
  exact ((h.2.2.1 (by decide) (by decide)).1 rfl).trans (by decide)

/-- C3: on the release that brings a write handle's reference count to zero,
a staged buffer starting with `%PDF` is uploaded exactly once as PDF, a buffer
with the EPUB signature in its first 100 bytes exactly once as EPUB, any other
buffer fails with `EIO` and uploads nothing; an upload failure maps to
`EREMOTEIO`; and the staged write buffer is removed from the adapter state in
every outcome. -/
theorem C3_release (s : RelState) (fh : Nat) (u : Bool) (doc : WDoc)
    (data : List Nat) (hcnt : s.fhCount fh ≤ 1)
    (hw : lookupA s.writeBuffers fh = some (doc, data)) :
    (pdfMagic.isPrefixOf data = true →
      (releaseOp s fh u).uploads = [(doc, FileType.pdf, data)] ∧
      (releaseOp s fh u).result =
        (if u then Except.ok () else Except.error Errno.eremoteio)) ∧
    (pdfMagic.isPrefixOf data = false →
      containsSeq epubSig (data.take 100) = true →
      (releaseOp s fh u).uploads = [(doc, FileType.epub, data)] ∧
      (releaseOp s fh u).result =
        (if u then Except.ok () else Except.error Errno.eremoteio)) ∧
    (pdfMagic.isPrefixOf data = false →
      containsSeq epubSig (data.take 100) = false →
      (releaseOp s fh u).result = Except.error Errno.eio ∧
      (releaseOp s fh u).uploads = []) ∧
    lookupA (releaseOp s fh u).state.writeBuffers fh = none := by
  by_cases h0 : 0 < s.fhCount fh
  · have he : s.fhCount fh = 1 := by omega
    by_cases hpdf : pdfMagic.isPrefixOf data = true <;>
      by_cases hepub : containsSeq epubSig (data.take 100) = true <;>
      simp [releaseOp, h0, he, hw, hpdf, hepub, lookupA_eraseA_self,
        Bool.not_eq_true] at hpdf hepub ⊢
  · have he0 : s.fhCount fh = 0 := by omega
    by_cases hpdf : pdfMagic.isPrefixOf data = true <;>
      by_cases hepub : containsSeq epubSig (data.take 100) = true <;>
      simp [releaseOp, h0, he0, hw, hpdf, hepub, lookupA_eraseA_self,
        Bool.not_eq_true] at hpdf hepub ⊢

/-- Witness for C3: releasing the last handle of a staged `%PDF` buffer
uploads it once as PDF, succeeds, and drops the staged buffer. -/
theorem C3_witness :
    (releaseOp c3State 4 true).uploads =
      [(⟨"dd", "report"⟩, FileType.pdf, pdfMagic ++ [10])] ∧
    (releaseOp c3State 4 true).result = Except.ok () ∧
    lookupA (releaseOp c3State 4 true).state.writeBuffers 4 = none := by
  have h := C3_release c3State 4 true ⟨"dd", "report"⟩ (pdfMagic ++ [10])
    (by decide) (by decide)
  exact ⟨(h.1 (by decide)).1, ((h.1 (by decide)).2).trans (by decide), h.2.2.2⟩

end RMfuse

namespace RMfuse

/-- A failed search over a first segment passes through an append. -/
theorem find?_append_of_none {α : Type} (p : α → Bool) (l1 l2 : List α)
    (h : l1.find? p = none) : (l1 ++ l2).find? p = l2.find? p := by
  rw [List.find?_append, h]
  rfl

/-- With pairwise-distinct keys, searching by a bound key finds its pair. -/
theorem find?_key_of_mem_nodup {α : Type} (l : List (Nat × α))
    (hn : (l.map Prod.fst).Nodup) (i : Nat) (v : α) (hm : (i, v) ∈ l) :
    l.find? (fun p => p.1 == i) = some (i, v) := by
  induction l with
  | nil => cases hm
  | cons a as ih =>
    rw [List.map_cons, List.nodup_cons] at hn
    rcases List.mem_cons.mp hm with he | ht
    · rw [← he]
      simp [List.find?_cons]
    · have hmap : i ∈ as.map Prod.fst := List.mem_map.mpr ⟨(i, v), ht, rfl⟩
      have hne : (a.1 == i) = false := by
        rw [beq_eq_false_iff_ne]
        intro hai
        exact hn.1 (hai ▸ hmap)
      rw [List.find?_cons, hne]
      exact ih hn.2 ht

/-- A failed reverse lookup means the raw search failed. -/
theorem findInode_none_find? (r : Registry) (id_ : String)
    (h : r.findInode id_ = none) :
    r.pairs.find? (fun p => p.2 == id_) = none := by
  unfold Registry.findInode at h
  cases hf : r.pairs.find? (fun p => p.2 == id_) with
  | none => rfl
  | some a => rw [hf] at h; cases h

/-- A failed reverse lookup means the id is bound to no pair. -/
theorem findInode_none_forall (r : Registry) (id_ : String)
    (h : r.findInode id_ = none) : ∀ p ∈ r.pairs, p.2 ≠ id_ := by
  intro p hp
  have h2 := List.find?_eq_none.mp (findInode_none_find? r id_ h) p hp
  simpa using h2

/-- `get_inode` preserves the registry invariant. -/
theorem getInode_inv (r : Registry) (id_ : String) (h : r.Inv) :
    (r.getInode id_).1.Inv := by
  unfold Registry.getInode
  cases hf : r.findInode id_ with
  | some i => exact h
  | none =>
    obtain ⟨h1, h2, h3⟩ := h
    refine ⟨?_, ?_, ?_⟩
    · intro p hp
      simp only [Registry.alloc, Registry.bind0] at hp ⊢
      rcases List.mem_append.mp hp with hp | hp
      · exact Nat.lt_succ_of_lt (h1 p hp)
      · rw [List.mem_singleton.mp hp]
        exact Nat.lt_succ_self _
    · simp only [Registry.alloc, Registry.bind0, List.map_append, List.map_cons,
        List.map_nil]
      rw [← List.concat_eq_append]
      refine List.Nodup.concat ?_ h2
      intro hmem
      obtain ⟨p, hp, hpe⟩ := List.mem_map.mp hmem
      exact absurd (hpe ▸ h1 p hp) (Nat.lt_irrefl _)
    · simp only [Registry.alloc, Registry.bind0, List.map_append, List.map_cons,
        List.map_nil]
      rw [← List.concat_eq_append]
      refine List.Nodup.concat ?_ h3
      intro hmem
      obtain ⟨p, hp, hpe⟩ := List.mem_map.mp hmem
      exact findInode_none_forall r id_ hf p hp hpe

/-- After binding an id, the reverse lookup finds the fresh inode. -/
theorem findInode_after_bind (r : Registry) (id_ : String)
    (hf : r.findInode id_ = none) :
    (Registry.bind0 (r.alloc).1 (r.alloc).2 id_).findInode id_ =
      some r.nextInode := by
  unfold Registry.findInode Registry.alloc Registry.bind0
  rw [find?_append_of_none _ _ _ (findInode_none_find? r id_ hf)]
  simp [List.find?_cons]

/-- `get_inode` is idempotent: the second call returns the same registry and
the same inode. -/
theorem getInode_getInode (r : Registry) (id_ : String) :
    (r.getInode id_).1.getInode id_ = ((r.getInode id_).1, (r.getInode id_).2) := by
  cases hf : r.findInode id_ with
  | some i =>
    simp [Registry.getInode, hf]
  | none =>
    have hb := findInode_after_bind r id_ hf
    simp only [Registry.alloc] at hb
    simp [Registry.getInode, hf, hb, Registry.alloc]

/-- The forward lookup returns the id that `get_inode` bound. -/
theorem getId_getInode (r : Registry) (id_ : String) (h : r.Inv) :
    (r.getInode id_).1.getId (r.getInode id_).2 = some id_ := by
  cases hf : r.findInode id_ with
  | some i =>
    simp only [Registry.getInode, hf]
    unfold Registry.findInode at hf
    cases hq : r.pairs.find? (fun p => p.2 == id_) with
    | none => rw [hq] at hf; cases hf
    | some q =>
      rw [hq] at hf
      have hqi : q.1 = i := by simpa using hf
      have hqmem := List.mem_of_find?_eq_some hq
      have hqv : q.2 = id_ := by simpa using List.find?_some hq
      unfold Registry.getId lookupA
      rw [show q = (i, q.2) by rw [← hqi]] at hqmem
      rw [find?_key_of_mem_nodup r.pairs h.2.1 i q.2 hqmem]
      simp [hqv]
  | none =>
    have hinv := getInode_inv r id_ h
    rw [Registry.getInode, hf] at hinv ⊢
    simp only [Registry.alloc, Registry.bind0] at hinv ⊢
    unfold Registry.getId lookupA
    have hmem : (r.nextInode, id_) ∈ r.pairs ++ [(r.nextInode, id_)] := by
      simp
    rw [find?_key_of_mem_nodup _ hinv.2.1 r.nextInode id_ hmem]
    rfl

/-- Inodes never allocated are absent from the table. -/
theorem getId_none_of_ge (r : Registry) (inode : Nat) (h : r.Inv)
    (hge : r.nextInode ≤ inode) : r.getId inode = none := by
  unfold Registry.getId lookupA
  rw [List.find?_eq_none.mpr ?_]
  · rfl
  · intro p hp
    have hlt := h.1 p hp
    simp only [ne_eq, beq_iff_eq]
    omega

/-- The invariant makes the table a bijection on its members. -/
theorem inv_pairwise (r : Registry) (h : r.Inv) :
    ∀ p ∈ r.pairs, ∀ q ∈ r.pairs, (p.1 = q.1 ↔ p.2 = q.2) := by
  intro p hp q hq
  constructor
  · intro he
    rw [List.inj_on_of_nodup_map h.2.1 hp hq he]
  · intro he
    rw [List.inj_on_of_nodup_map h.2.2 hp hq he]

/-- C5: the inode table is a bijection preserved by every operation; inodes
are allocated in strictly increasing order and never removed; `get_inode` is
idempotent and `get_id` returns the bound id for every inode it ever returns,
while an inode never allocated fails to resolve. -/
theorem C5_inode_registry (r : Registry) (id_ : String) (inode : Nat)
    (h : r.Inv) :
    Registry.init.Inv ∧
    (r.getInode id_).1.Inv ∧
    ((r.getInode id_).1.getInode id_ = ((r.getInode id_).1, (r.getInode id_).2)) ∧
    ((r.getInode id_).1.getId (r.getInode id_).2 = some id_) ∧
    (r.findInode id_ = none →
      (r.getInode id_).2 = r.nextInode ∧
      (r.getInode id_).1.nextInode = r.nextInode + 1 ∧
      ∀ p ∈ r.pairs, p.1 < (r.getInode id_).2) ∧
    (r.nextInode ≤ inode → r.getId inode = none) ∧
    (∀ p ∈ r.pairs, ∀ q ∈ r.pairs, (p.1 = q.1 ↔ p.2 = q.2)) := by
  refine ⟨by decide, getInode_inv r id_ h, getInode_getInode r id_,
    getId_getInode r id_ h, ?_, getId_none_of_ge r inode h, inv_pairwise r h⟩
  intro hf
  refine ⟨?_, ?_, ?_⟩
  · simp [Registry.getInode, hf, Registry.alloc]
  · simp [Registry.getInode, hf, Registry.alloc, Registry.bind0]
  · intro p hp
    have hlt := h.1 p hp
    simp only [Registry.getInode, hf]
    exact hlt

/-- Witness for C5: the freshly initialised registry satisfies the invariant,
a new id binds and reads back, and an unallocated inode fails. -/
theorem C5_witness :
    Registry.init.Inv ∧
    (Registry.init.getInode "doc").1.getId (Registry.init.getInode "doc").2 =
      some "doc" ∧
    Registry.init.getId 9 = none := by
  have h := C5_inode_registry Registry.init "doc" 9 (by decide)
  exact ⟨h.1, h.2.2.2.1, h.2.2.2.2.2.1 (by decide)⟩

end RMfuse

namespace RMfuse

/-- The names reported by the reply loop are the entries projected relative to
the directory, independent of the offset token. -/
theorem readdirLoop_map_fst (mode : FSMode) (d : Item) (l : List Item) (t : Nat) :
    (readdirLoop mode d l t).map Prod.fst =
      l.map (fun c => filename mode c (some d)) := by
  induction l generalizing t with
  | nil => rfl
  | cons c cs ih => simp [readdirLoop, ih]

/-- The reply loop restarted from a dropped suffix with the matching token is
the dropped suffix of the full reply. -/
theorem readdirLoop_drop (mode : FSMode) (d : Item) (l : List Item) (s t : Nat) :
    readdirLoop mode d (l.drop t) (s + t) = (readdirLoop mode d l s).drop t := by
  induction l generalizing s t with
  | nil => simp [readdirLoop]
  | cons c cs ih =>
    cases t with
    | zero => rfl
    | succ t0 =>
      rw [List.drop_succ_cons, show s + (t0 + 1) = (s + 1) + t0 by omega, ih]
      rfl

/-- Resuming `readdir` from an offset token replays exactly the suffix of the
full listing after that token. -/
theorem readdirOp_drop (mode : FSMode) (store : String → Item) (item : Item)
    (t : Nat) :
    readdirOp mode store item t = (readdirOp mode store item 0).drop t := by
  unfold readdirOp
  have h := readdirLoop_drop mode item (readdirEntries store item) 0 t
  simpa using h

/-- C9: for every directory, readdir enumerates the directory itself as `.`,
then its parent as `..` (omitted at the root), then the control file (at the
root only), then the children in store order projected through the name
projection; and resuming from any offset token yields exactly the suffix of
the full listing after that token, so across paginated calls every entry is
reported exactly once. -/
theorem C9_readdir_listing (mode : FSMode) (store : String → Item) (item : Item)
    (hpar : ∀ pid, item.parent = some pid → (store pid).id = pid ∧ pid ≠ item.id)
    (hmode1 : item.id ≠ "MODE_ID") (hmode2 : item.parent ≠ some "MODE_ID")
    (hchild : ∀ c ∈ item.children, c.id ≠ item.id ∧ item.parent ≠ some c.id) :
    ((readdirOp mode store item 0).map Prod.fst =
      ["."] ++
        (match item.parent with
         | some _ => [".."]
         | none => []) ++
        (if item.name = "" then [".mode"] else []) ++
        item.children.map (fun c => filenameBase mode c)) ∧
    (∀ t, readdirOp mode store item t = (readdirOp mode store item 0).drop t) := by
  refine ⟨?_, fun t => readdirOp_drop mode store item t⟩
  unfold readdirOp readdirEntries
  rw [List.drop_zero, readdirLoop_map_fst, List.map_append, List.map_append,
    List.map_append]
  congr 1
  congr 1
  congr 1
  · simp [filename]
  · cases hp : item.parent with
    | none => rfl
    | some pid =>
      obtain ⟨hid, hne⟩ := hpar pid hp
      have hc1 : ¬(store pid).id = item.id := by rw [hid]; exact hne
      simp [filename, hc1, hp, hid, hne]
  · by_cases hn : item.name = "" <;> simp only [hn, if_true, if_false]
    · have hc1 : ¬modeFileItem.id = item.id := fun he => hmode1 (by
        simpa [modeFileItem, Item.id] using he.symm)
      have hc2 : ¬item.parent = some modeFileItem.id := by
        simpa [modeFileItem, Item.id] using hmode2
      simp only [List.map_cons, List.map_nil, filename]
      rw [if_neg hc1, if_neg hc2]
      rfl
    · rfl
  · refine List.map_congr_left ?_
    intro c hc
    obtain ⟨h1, h2⟩ := hchild c hc
    simp [filename, h1, h2]

/-- Witness for C9 at the root with one folder child: the full listing and a
resumption from token 2. -/
theorem C9_witness :
    (readdirOp FSMode.annot (fun _ => demoRoot) demoRoot 0).map Prod.fst =
      [".", ".mode", "foo"] ∧
    readdirOp FSMode.annot (fun _ => demoRoot) demoRoot 2 =
      (readdirOp FSMode.annot (fun _ => demoRoot) demoRoot 0).drop 2 := by
  have h := C9_readdir_listing FSMode.annot (fun _ => demoRoot) demoRoot
    (by intro pid hp; simp [demoRoot, Item.parent] at hp)
    (by decide) (by decide)
    (by
      intro c hc
      simp only [demoRoot, Item.children, List.mem_singleton] at hc
      subst hc
      exact ⟨by decide, by decide⟩)
  exact ⟨h.1.trans (by rfl), h.2 2⟩

end RMfuse
